import Mathlib

/-!
# Verification of the blend2d/HarfBuzz shaping bridge

Shallow embedding of `src/blend2d_shaping.{h,cpp}` (the `HBFontFace`,
`HBFont`, `HBShapedText` version of the code, i.e. the one whose constructors
throw from `HBBlob` and whose `calculate_bounding_rect` takes glyph-info and
glyph-position spans plus an `HBFont`).

Modelling conventions:
* machine doubles/floats are modelled as `ℚ` (the claims under study are about
  exact arithmetic structure, not rounding);
* native HarfBuzz handles are natural numbers; a field of type `Option ℕ`
  models a possibly-null `hb_*_t *` pointer, `none` being `nullptr`;
* `std::terminate()` (from `narrow`, from the null checks in the accessors and
  from a failing `assert`) is modelled by an `Option` result, `none` meaning
  "no normal return";
* a thrown `std::runtime_error` is modelled as `Except.error` carrying the
  message string;
* the HarfBuzz engine itself is external to the repository and is modelled as
  an abstract record of the functions the code calls.
-/

namespace Blend2dShaping

/-- Ink extents reported by `hb_font_get_glyph_extents`:
x/y bearing and a signed width/height (HarfBuzz reports `height ≤ 0` for
ascent-up fonts). -/
structure GlyphExtents where
  x_bearing : ℤ
  y_bearing : ℤ
  width : ℤ
  height : ℤ
deriving DecidableEq, Repr

/-- One entry of the `hb_glyph_position_t` array. -/
structure GlyphPosition where
  x_offset : ℤ
  y_offset : ℤ
  x_advance : ℤ
  y_advance : ℤ
deriving DecidableEq, Repr

/-- Blend2D integer point (`BLPointI`). -/
structure BLPointI where
  x : ℤ
  y : ℤ
deriving DecidableEq, Repr

/-- Blend2D double point (`BLPoint`), doubles modelled as `ℚ`. -/
structure BLPoint where
  x : ℚ
  y : ℚ
deriving DecidableEq, Repr

/-- Blend2D double box (`BLBox`), doubles modelled as `ℚ`. -/
structure BLBox where
  x0 : ℚ
  y0 : ℚ
  x1 : ℚ
  y1 : ℚ
deriving DecidableEq, Repr

/-- `BLBox {}`: the value-initialized all-zero box. -/
def BLBox.zero : BLBox := ⟨0, 0, 0, 0⟩

/-- Blend2D rectangle (`BLRect`): position plus extent. -/
structure BLRect where
  x : ℚ
  y : ℚ
  w : ℚ
  h : ℚ
deriving DecidableEq, Repr

/-- `BLGlyphPlacement`: the (offset, advance) pair stored per glyph. -/
structure BLGlyphPlacement where
  placement : BLPointI
  advance : BLPointI
deriving DecidableEq, Repr

/-! ## `narrow` (GSL-style checked narrowing, `std::terminate` on failure) -/

/-- `narrow<int>(std::size_t val)`: succeeds iff `val` fits in a 32-bit
signed `int` (`std::in_range<int>`), otherwise `std::terminate` (`none`). -/
def narrowIntOfNat (val : ℕ) : Option ℤ :=
  if val ≤ 2 ^ 31 - 1 then some (val : ℤ) else none

/-- `narrow<unsigned int>(std::size_t val)`: succeeds iff `val` fits in a
32-bit `unsigned int`, otherwise `std::terminate` (`none`). -/
def narrowUIntOfNat (val : ℕ) : Option ℕ :=
  if val ≤ 2 ^ 32 - 1 then some val else none

/-- `std::round`: rounding half away from zero, on the `ℚ` model of doubles. -/
def cppRound (q : ℚ) : ℤ :=
  if 0 ≤ q then ⌊q + 1 / 2⌋ else -⌊-q + 1 / 2⌋

/-- Truncation toward zero, the behaviour of a C++ float-to-integer cast. -/
def ratTrunc (q : ℚ) : ℤ :=
  if 0 ≤ q then ⌊q⌋ else ⌈q⌉

/-- `narrow<unsigned int>(double val)`: casts with truncation toward zero and
terminates unless the cast value converts back exactly.  A `val` outside
`(-1, 2^32)` makes the cast itself undefined behaviour / unrepresentable,
also modelled as no normal return. -/
def narrowUIntOfRat (val : ℚ) : Option ℕ :=
  if -1 < val ∧ val < 2 ^ 32 then
    if ((ratTrunc val : ℤ) : ℚ) = val then some (ratTrunc val).toNat else none
  else none

/-! ## The HarfBuzz engine, abstractly

The engine is outside the repository; the record below holds exactly the
engine entry points the bridge calls, as pure functions.  Handles returned by
the engine are plain naturals (HarfBuzz never returns null from these). -/

structure Engine where
  /-- `hb_blob_create(data, length, HB_MEMORY_MODE_READONLY, nullptr, nullptr)`. -/
  blobCreate : List ℕ → ℕ
  /-- `hb_blob_get_empty()`: the canonical empty-blob sentinel. -/
  emptyBlob : ℕ
  /-- `hb_face_create(blob, index)`. -/
  faceCreate : ℕ → ℕ → ℕ
  /-- `hb_face_get_empty()`: the canonical empty-face sentinel. -/
  emptyFace : ℕ
  /-- `hb_font_create(face)`. -/
  fontCreate : ℕ → ℕ
  /-- `hb_font_get_empty()`: the canonical empty-font sentinel. -/
  emptyFont : ℕ
  /-- The whole shaping pipeline on a fresh buffer: add the UTF-8 bytes,
  set LTR/Latin/en, guess remaining segment properties, `hb_shape`, then read
  back the buffer: one `(glyph id, position)` pair per produced glyph. -/
  shape : List ℕ → ℕ → List (ℕ × GlyphPosition)
  /-- `hb_font_get_glyph_extents(font, glyph, &extents)`: `none` models a
  `false` success flag ("no extents available"). -/
  glyphExtents : ℕ → ℕ → Option GlyphExtents
  /-- `hb_font_get_scale(font, &x, &y)`. -/
  fontScale : ℕ → BLPointI

/-! ## `HBBlob` and `HBFontFace` -/

/-- `HBBlob::HBBlob(std::span<const uint8_t>)`: narrows the byte count to
`unsigned int` (terminate on overflow), calls `hb_blob_create`, and throws
`std::runtime_error` when the data was non-empty yet the engine handed back
its canonical empty-blob sentinel. -/
def HBBlob.fromData (e : Engine) (font_data : List ℕ) : Option (Except String ℕ) :=
  match narrowUIntOfNat font_data.length with
  | none => none
  | some _ =>
    let blob := e.blobCreate font_data
    if font_data ≠ [] ∧ blob = e.emptyBlob then
      some (Except.error "Unable to load font_data in Harfbuzz")
    else
      some (Except.ok blob)

/-- `HBFontFace`: wraps an `hb_face_t *` (`none` = `nullptr`). -/
structure HBFontFace where
  hb_face_ : Option ℕ
deriving DecidableEq, Repr

/-- `HBFontFace::HBFontFace()`: holds `hb_face_get_empty()`. -/
def HBFontFace.default (e : Engine) : HBFontFace :=
  ⟨some e.emptyFace⟩

/-- `HBFontFace::HBFontFace(std::span<const uint8_t>, uint32_t)`: builds the
temporary `HBBlob` (which may throw), then `hb_face_create` on its blob and
`hb_face_make_immutable`.  The `narrow<unsigned int>` of the `uint32_t` index
always succeeds and is the identity. -/
def HBFontFace.fromData (e : Engine) (font_data : List ℕ) (font_index : ℕ) :
    Option (Except String HBFontFace) :=
  (HBBlob.fromData e font_data).map fun r =>
    r.map fun blob => ⟨some (e.faceCreate blob font_index)⟩

/-- `HBFontFace::hb_face()`: terminates (`none`) when the stored pointer is
null, otherwise returns it. -/
def HBFontFace.hb_face (f : HBFontFace) : Option ℕ :=
  f.hb_face_

/-- Copy constructor: `hb_face_reference(other.hb_face())` returns the very
same handle (after bumping the refcount), so the copy shares it; goes through
the accessor, hence terminates on a null source. -/
def HBFontFace.copyCtor (other : HBFontFace) : Option HBFontFace :=
  other.hb_face.map fun h => ⟨some h⟩

/-- Move constructor: delegates to the default constructor then swaps, so the
result is `(new object, moved-from object)` where the new object took the
source handle and the moved-from object holds the empty-face sentinel. -/
def HBFontFace.moveCtor (e : Engine) (other : HBFontFace) :
    HBFontFace × HBFontFace :=
  (⟨other.hb_face_⟩, HBFontFace.default e)

/-- Copy assignment (copy-and-swap): returns the new value of `*this`; the
temporary copy takes `*this`'s previous handle and releases it, so the old
object (the unused first argument) contributes nothing to the result. -/
def HBFontFace.copyAssign (_this other : HBFontFace) : Option HBFontFace :=
  (HBFontFace.copyCtor other).map fun copy => ⟨copy.hb_face_⟩

/-- Move assignment: a bare swap; returns `(new *this, moved-from other)`. -/
def HBFontFace.moveAssign (this other : HBFontFace) :
    HBFontFace × HBFontFace :=
  (⟨other.hb_face_⟩, ⟨this.hb_face_⟩)

/-! ## `HBFont` -/

/-- `HBFont`: wraps an `hb_font_t *` plus the stored size.  The class has the
default member initializer `float font_size_ {}`, i.e. `0`. -/
structure HBFont where
  hb_font_ : Option ℕ
  font_size_ : ℚ
deriving DecidableEq, Repr

/-- `HBFont::HBFont()`: the empty-font sentinel; `font_size_` stays at its
default initializer `0`. -/
def HBFont.default (e : Engine) : HBFont :=
  ⟨some e.emptyFont, 0⟩

/-- `HBFont::hb_font()`: terminates (`none`) on a null pointer. -/
def HBFont.hb_font (f : HBFont) : Option ℕ :=
  f.hb_font_

/-- `HBFont::font_size()`. -/
def HBFont.font_size (f : HBFont) : ℚ :=
  f.font_size_

/-- `HBFont::HBFont(const HBFontFace &, float)`: `hb_font_create` on the
face's handle (accessor may terminate), store the size, then
`hb_font_set_ppem` with `narrow<unsigned int>(std::round(font_size))`, which
terminates when the rounded size is not exactly representable as an
`unsigned int`.  (`set_ppem` itself only stores hinting metadata and does not
enter any claimed computation.) -/
def HBFont.create (e : Engine) (face : HBFontFace) (font_size : ℚ) :
    Option HBFont :=
  match face.hb_face with
  | none => none
  | some fh =>
    match narrowUIntOfRat ((cppRound font_size : ℤ) : ℚ) with
    | none => none
    | some _ => some ⟨some (e.fontCreate fh), font_size⟩

/-- Copy constructor: references (shares) the source handle, but the
initializer list sets only `hb_font_`, so `font_size_` is left at its default
member initializer `0`. -/
def HBFont.copyCtor (other : HBFont) : Option HBFont :=
  other.hb_font.map fun h => ⟨some h, 0⟩

/-- Move constructor: delegates to the default constructor then swaps only
`hb_font_`.  Result `(new object, moved-from object)`: the new object gets
the source handle with `font_size_ = 0`, the moved-from object gets the
empty-font sentinel and keeps its old size. -/
def HBFont.moveCtor (e : Engine) (other : HBFont) : HBFont × HBFont :=
  (⟨other.hb_font_, 0⟩, ⟨some e.emptyFont, other.font_size_⟩)

/-- Copy assignment: builds `copy = HBFont{other}` (through the copy
constructor) and then swaps only `font_size_` with the temporary — the handle
of `*this` is left untouched. -/
def HBFont.copyAssign (this other : HBFont) : Option HBFont :=
  (HBFont.copyCtor other).map fun copy => ⟨this.hb_font_, copy.font_size_⟩

/-- Move assignment: swaps only `hb_font_`; returns
`(new *this, moved-from other)`. -/
def HBFont.moveAssign (this other : HBFont) : HBFont × HBFont :=
  (⟨other.hb_font_, this.font_size_⟩, ⟨this.hb_font_, other.font_size_⟩)

/-! ## Bounding-box calculation (`calculate_bounding_rect`)

The C++ loop initializes the running box to
`(+inf, +inf, -inf, -inf)` together with `found = false`, and both change in
lockstep: the box stays at its infinite initial value exactly as long as
`found` is `false`.  Since `ℚ` has no infinities, the pair is represented as
an `Option BLBox`: `none` is the untouched infinite box with `found = false`,
`some r` is an accumulated box with `found = true`.  `min`/`max` against the
infinite initial box returns the other operand, which is what `unionBox none`
does. -/

/-- One glyph's ink box in the pen-origin coordinate space, with the y-axis
negated (the `BLBox glyph_rect {...}` initializer in the loop body). -/
def glyphRect (origin : BLPoint) (pos : GlyphPosition) (ext : GlyphExtents) :
    BLBox where
  x0 := origin.x + pos.x_offset + ext.x_bearing
  y0 := -(origin.y + pos.y_offset + ext.y_bearing)
  x1 := origin.x + pos.x_offset + ext.x_bearing + ext.width
  y1 := -(origin.y + pos.y_offset + ext.y_bearing + ext.height)

/-- The four running `std::min`/`std::max` updates; `none` is the infinite
initial box, absorbed by `min`/`max`. -/
def unionBox (acc : Option BLBox) (g : BLBox) : BLBox :=
  match acc with
  | none => g
  | some r => ⟨min r.x0 g.x0, min r.y0 g.y0, max r.x1 g.x1, max r.y1 g.y1⟩

/-- Loop state: the pen `origin` and the accumulated box (`none` ↔ the
infinite initial rect with `found = false`). -/
structure BoundState where
  origin : BLPoint
  acc : Option BLBox
deriving DecidableEq, Repr

/-- `true` iff `hb_font_get_glyph_extents` succeeds for this glyph id and
reports nonzero width and height — the loop's contribution condition. -/
def contributesB (extentsOf : ℕ → Option GlyphExtents) (cp : ℕ) : Bool :=
  match extentsOf cp with
  | some ext => decide (ext.width ≠ 0) && decide (ext.height ≠ 0)
  | none => false

/-- One iteration of the loop body: query extents, possibly union in the
glyph box (after the two `assert`s — a failing assert is `none`), then always
advance the pen origin by the glyph's advances. -/
def boundingStep (extentsOf : ℕ → Option GlyphExtents) (s : BoundState)
    (g : ℕ × GlyphPosition) : Option BoundState :=
  let pos := g.2
  let origin' : BLPoint := ⟨s.origin.x + pos.x_advance, s.origin.y + pos.y_advance⟩
  match extentsOf g.1 with
  | some ext =>
    if ext.width ≠ 0 ∧ ext.height ≠ 0 then
      let gr := glyphRect s.origin pos ext
      if gr.x0 ≤ gr.x1 ∧ gr.y0 ≤ gr.y1 then
        some ⟨origin', some (unionBox s.acc gr)⟩
      else
        none
    else
      some ⟨origin', s.acc⟩
  | none => some ⟨origin', s.acc⟩

/-- The loop over the zipped glyph data in shaped order. -/
def boundingLoop (extentsOf : ℕ → Option GlyphExtents) :
    List (ℕ × GlyphPosition) → BoundState → Option BoundState
  | [], s => some s
  | g :: rest, s =>
    match boundingStep extentsOf s g with
    | none => none
    | some s' => boundingLoop extentsOf rest s'

/-- `rect / scale * font_size`: componentwise division by the per-axis scale
(`BLBox operator/ BLPoint`), then scalar multiplication by the size. -/
def scaleBox (r : BLBox) (scale : BLPointI) (font_size : ℚ) : BLBox where
  x0 := r.x0 / scale.x * font_size
  y0 := r.y0 / scale.y * font_size
  x1 := r.x1 / scale.x * font_size
  y1 := r.y1 / scale.y * font_size

/-- `calculate_bounding_rect(glyph_info, glyph_positions, font)`: reads the
font handle (accessor may terminate) and its scale, runs the loop over
`min(#info, #positions)` glyphs (the `zip`), and afterwards returns the
all-zero box when nothing contributed or either scale component is zero,
otherwise the accumulated box divided by the scale and multiplied by the
stored font size. -/
def calculate_bounding_rect (e : Engine) (glyph_info : List ℕ)
    (glyph_positions : List GlyphPosition) (font : HBFont) : Option BLBox :=
  match font.hb_font with
  | none => none
  | some fh =>
    let scale := e.fontScale fh
    match boundingLoop (e.glyphExtents fh) (glyph_info.zip glyph_positions)
        ⟨⟨0, 0⟩, none⟩ with
    | none => none
    | some s =>
      match s.acc with
      | none => some BLBox.zero
      | some r =>
        if scale.x = 0 ∨ scale.y = 0 then some BLBox.zero
        else some (scaleBox r scale font.font_size_)

/-! ## `HBShapedText` -/

/-- The per-glyph `BLGlyphPlacement` built from an `hb_glyph_position_t`. -/
def toPlacement (p : GlyphPosition) : BLGlyphPlacement :=
  ⟨⟨p.x_offset, p.y_offset⟩, ⟨p.x_advance, p.y_advance⟩⟩

/-- `HBShapedText`: owns the codepoint sequence, the placement sequence, and
the computed bounding box. -/
structure HBShapedText where
  codepoints_ : List ℕ
  placements_ : List BLGlyphPlacement
  bounding_box_ : BLBox
deriving DecidableEq, Repr

/-- `BLGlyphRun`: the renderer-facing view. -/
structure BLGlyphRun where
  size : ℕ
  glyphData : List ℕ
  placementData : List BLGlyphPlacement
deriving DecidableEq, Repr

/-- `HBShapedText::HBShapedText(std::string_view, const HBFont &)`: narrow
the byte count to `int` (terminate on overflow), run the engine's shaping
pipeline, read back glyph ids and positions (both arrays have the buffer's
glyph count as their length), transform them into the two owned sequences,
and compute the bounding box from the same data. -/
def HBShapedText.fromText (e : Engine) (text_utf8 : List ℕ) (font : HBFont) :
    Option HBShapedText :=
  match narrowIntOfNat text_utf8.length with
  | none => none
  | some _ =>
    match font.hb_font with
    | none => none
    | some fh =>
      let shaped := e.shape text_utf8 fh
      let glyph_info := shaped.map Prod.fst
      let glyph_positions := shaped.map Prod.snd
      match calculate_bounding_rect e glyph_info glyph_positions font with
      | none => none
      | some bb => some ⟨glyph_info, glyph_positions.map toPlacement, bb⟩

/-- `HBShapedText::glyph_run()`: the view with
`size = std::min(codepoints_.size(), placements_.size())`. -/
def HBShapedText.glyph_run (st : HBShapedText) : BLGlyphRun :=
  ⟨min st.codepoints_.length st.placements_.length, st.codepoints_, st.placements_⟩

/-- `HBShapedText::bounding_box()`. -/
def HBShapedText.bounding_box (st : HBShapedText) : BLBox :=
  st.bounding_box_

/-- `HBShapedText::bounding_rect()`:
`BLRect {box.x0, box.y0, box.x1 - box.x0, box.y1 - box.y0}`. -/
def HBShapedText.bounding_rect (st : HBShapedText) : BLRect :=
  ⟨st.bounding_box_.x0, st.bounding_box_.y0,
   st.bounding_box_.x1 - st.bounding_box_.x0,
   st.bounding_box_.y1 - st.bounding_box_.y0⟩

/-- The defaulted `operator==`: memberwise comparison of all three fields. -/
def HBShapedText.valueEq (a b : HBShapedText) : Bool :=
  decide (a.codepoints_ = b.codepoints_)
    && decide (a.placements_ = b.placements_)
    && decide (a.bounding_box_ = b.bounding_box_)

/-! ## Helper lemmas about the bounding-box loop -/

/-- The accumulated box, when present, always has strictly ordered edges. -/
def strictAcc : Option BLBox → Prop
  | none => True
  | some r => r.x0 < r.x1 ∧ r.y0 < r.y1

theorem glyphRect_x1_eq (origin : BLPoint) (pos : GlyphPosition)
    (ext : GlyphExtents) :
    (glyphRect origin pos ext).x1 = (glyphRect origin pos ext).x0 + (ext.width : ℚ) := by
  simp [glyphRect]

theorem glyphRect_y1_eq (origin : BLPoint) (pos : GlyphPosition)
    (ext : GlyphExtents) :
    (glyphRect origin pos ext).y1 = (glyphRect origin pos ext).y0 - (ext.height : ℚ) := by
  simp [glyphRect]; ring

/-- A glyph box that passed both asserts and has nonzero width/height has
strictly ordered edges. -/
theorem glyphRect_strict (origin : BLPoint) (pos : GlyphPosition)
    (ext : GlyphExtents) (hw : ext.width ≠ 0) (hh : ext.height ≠ 0)
    (hx : (glyphRect origin pos ext).x0 ≤ (glyphRect origin pos ext).x1)
    (hy : (glyphRect origin pos ext).y0 ≤ (glyphRect origin pos ext).y1) :
    (glyphRect origin pos ext).x0 < (glyphRect origin pos ext).x1 ∧
      (glyphRect origin pos ext).y0 < (glyphRect origin pos ext).y1 := by
  have hwq : (ext.width : ℚ) ≠ 0 := Int.cast_ne_zero.mpr hw
  have hhq : (ext.height : ℚ) ≠ 0 := Int.cast_ne_zero.mpr hh
  rw [glyphRect_x1_eq] at hx ⊢
  rw [glyphRect_y1_eq] at hy ⊢
  constructor
  · have h0 : 0 ≤ (ext.width : ℚ) := by linarith
    have h1 : 0 < (ext.width : ℚ) := lt_of_le_of_ne h0 (Ne.symm hwq)
    linarith
  · have h0 : (ext.height : ℚ) ≤ 0 := by linarith
    have h1 : (ext.height : ℚ) < 0 := lt_of_le_of_ne h0 hhq
    linarith

theorem unionBox_strict (acc : Option BLBox) (g : BLBox) (hacc : strictAcc acc)
    (hgx : g.x0 < g.x1) (hgy : g.y0 < g.y1) :
    strictAcc (some (unionBox acc g)) := by
  cases acc with
  | none => exact ⟨hgx, hgy⟩
  | some r =>
    obtain ⟨hrx, hry⟩ := hacc
    refine ⟨?_, ?_⟩
    · exact lt_of_le_of_lt (min_le_left _ _) (lt_of_lt_of_le hrx (le_max_left _ _))
    · exact lt_of_le_of_lt (min_le_left _ _) (lt_of_lt_of_le hry (le_max_left _ _))

/-- A successful loop step always advances the pen origin by the glyph's
advances. -/
theorem boundingStep_origin (extentsOf : ℕ → Option GlyphExtents)
    (s t : BoundState) (g : ℕ × GlyphPosition)
    (h : boundingStep extentsOf s g = some t) :
    t.origin = ⟨s.origin.x + g.2.x_advance, s.origin.y + g.2.y_advance⟩ := by
  unfold boundingStep at h
  cases hext : extentsOf g.1 with
  | none =>
    simp only [hext, Option.some.injEq] at h
    rw [← h]
  | some ext =>
    simp only [hext] at h
    split_ifs at h with h1 h2
    · simp only [Option.some.injEq] at h
      rw [← h]
    · simp only [Option.some.injEq] at h
      rw [← h]

/-- A successful loop step changes the accumulator only when the extents
query succeeded with nonzero width and height; and in that case it unions in
exactly the glyph's box. -/
theorem boundingStep_acc (extentsOf : ℕ → Option GlyphExtents)
    (s t : BoundState) (g : ℕ × GlyphPosition)
    (h : boundingStep extentsOf s g = some t) :
    (contributesB extentsOf g.1 = false → t.acc = s.acc) ∧
      (∀ ext, extentsOf g.1 = some ext → ext.width ≠ 0 → ext.height ≠ 0 →
        t.acc = some (unionBox s.acc (glyphRect s.origin g.2 ext))) := by
  constructor
  · intro hc
    unfold boundingStep at h
    cases hext : extentsOf g.1 with
    | none =>
      simp only [hext, Option.some.injEq] at h
      rw [← h]
    | some ext =>
      simp only [hext] at h
      simp only [contributesB, hext, Bool.and_eq_false_iff,
        decide_eq_false_iff_not, not_not] at hc
      split_ifs at h with h1 h2
      · exfalso
        rcases hc with hc | hc
        · exact h1.1 hc
        · exact h1.2 hc
      · simp only [Option.some.injEq] at h
        rw [← h]
  · intro ext hext hw hh
    unfold boundingStep at h
    rw [hext] at h
    simp only at h
    rw [if_pos ⟨hw, hh⟩] at h
    split_ifs at h with h2
    simp only [Option.some.injEq] at h
    rw [← h]

/-- A successful loop step preserves the strictness invariant of the
accumulated box. -/
theorem boundingStep_strict (extentsOf : ℕ → Option GlyphExtents)
    (s t : BoundState) (g : ℕ × GlyphPosition) (hs : strictAcc s.acc)
    (h : boundingStep extentsOf s g = some t) : strictAcc t.acc := by
  unfold boundingStep at h
  cases hext : extentsOf g.1 with
  | none =>
    simp only [hext, Option.some.injEq] at h
    rw [← h]; exact hs
  | some ext =>
    simp only [hext] at h
    split_ifs at h with h1 h2
    · simp only [Option.some.injEq] at h
      rw [← h]
      obtain ⟨hgx, hgy⟩ := glyphRect_strict s.origin g.2 ext h1.1 h1.2 h2.1 h2.2
      exact unionBox_strict s.acc _ hs hgx hgy
    · simp only [Option.some.injEq] at h
      rw [← h]; exact hs

/-- Over a whole successful loop run the strictness invariant is preserved. -/
theorem boundingLoop_strict (extentsOf : ℕ → Option GlyphExtents)
    (glyphs : List (ℕ × GlyphPosition)) :
    ∀ s s' : BoundState, boundingLoop extentsOf glyphs s = some s' →
      strictAcc s.acc → strictAcc s'.acc := by
  induction glyphs with
  | nil =>
    intro s s' h hs
    simp only [boundingLoop, Option.some.injEq] at h
    rw [← h]; exact hs
  | cons g rest ih =>
    intro s s' h hs
    unfold boundingLoop at h
    cases hstep : boundingStep extentsOf s g with
    | none => rw [hstep] at h; exact absurd h (by simp)
    | some t =>
      rw [hstep] at h
      exact ih t s' h (boundingStep_strict extentsOf s t g hs hstep)

/-- Over a whole successful loop run the pen origin moves by the sum of all
advances, whether or not any glyph contributed ink. -/
theorem boundingLoop_origin (extentsOf : ℕ → Option GlyphExtents)
    (glyphs : List (ℕ × GlyphPosition)) :
    ∀ s s' : BoundState, boundingLoop extentsOf glyphs s = some s' →
      s'.origin.x = s.origin.x + ((glyphs.map fun g => g.2.x_advance).sum : ℤ) ∧
      s'.origin.y = s.origin.y + ((glyphs.map fun g => g.2.y_advance).sum : ℤ) := by
  induction glyphs with
  | nil =>
    intro s s' h
    simp only [boundingLoop, Option.some.injEq] at h
    rw [← h]; simp
  | cons g rest ih =>
    intro s s' h
    unfold boundingLoop at h
    cases hstep : boundingStep extentsOf s g with
    | none => rw [hstep] at h; exact absurd h (by simp)
    | some t =>
      rw [hstep] at h
      obtain ⟨hx, hy⟩ := ih t s' h
      have ht := boundingStep_origin extentsOf s t g hstep
      constructor
      · rw [hx, ht]
        simp only [List.map_cons, List.sum_cons]
        push_cast
        ring
      · rw [hy, ht]
        simp only [List.map_cons, List.sum_cons]
        push_cast
        ring

/-- A scaled strict box is never the all-zero box when neither the scale
component nor the size is zero. -/
theorem scaleBox_ne_zero (r : BLBox) (scale : BLPointI) (fs : ℚ)
    (hr : r.x0 < r.x1) (hsx : (scale.x : ℚ) ≠ 0) (hfs : fs ≠ 0) :
    scaleBox r scale fs ≠ BLBox.zero := by
  intro h
  have hx0 : r.x0 / (scale.x : ℚ) * fs = 0 := congrArg BLBox.x0 h
  have hx1 : r.x1 / (scale.x : ℚ) * fs = 0 := congrArg BLBox.x1 h
  have e0 : r.x0 = 0 := by
    rcases mul_eq_zero.mp hx0 with h' | h'
    · rcases div_eq_zero_iff.mp h' with h'' | h''
      · exact h''
      · exact absurd h'' hsx
    · exact absurd h' hfs
  have e1 : r.x1 = 0 := by
    rcases mul_eq_zero.mp hx1 with h' | h'
    · rcases div_eq_zero_iff.mp h' with h'' | h''
      · exact h''
      · exact absurd h'' hsx
    · exact absurd h' hfs
  rw [e0, e1] at hr
  exact lt_irrefl 0 hr

/-! ## Concrete engine instantiations for witnesses and counterexamples -/

/-- A demonstration glyph with 10 × 10 font units of ink (HarfBuzz ascent-up
convention: positive width, negative height). -/
def extDemo : GlyphExtents := ⟨1, 2, 10, -10⟩

/-- A demonstration glyph position: no offsets, x-advance 600. -/
def posDemo : GlyphPosition := ⟨0, 0, 600, 0⟩

/-- A concrete engine: accepts non-empty blobs, shapes any text into the one
demonstration glyph, and reports a (1000, 1000) font scale. -/
def engDemo : Engine where
  blobCreate := fun data => if data = [] then 0 else 1
  emptyBlob := 0
  faceCreate := fun _ _ => 1
  emptyFace := 0
  fontCreate := fun _ => 5
  emptyFont := 0
  shape := fun _ _ => [(0, posDemo)]
  glyphExtents := fun _ cp => if cp = 0 then some extDemo else none
  fontScale := fun _ => ⟨1000, 1000⟩

/-- The same engine except its blob creation always hands back the
empty-blob sentinel, i.e. it rejects every byte sequence. -/
def engRej : Engine := { engDemo with blobCreate := fun _ => 0 }

/-- A font as `HBFont {face, 45.25f}` would store it on `engDemo`. -/
def fontDemo : HBFont := ⟨some 5, 181 / 4⟩

/-- The pixel-space box the demonstration run yields at size 45.25. -/
def boxDemo : BLBox := ⟨181 / 4000, -181 / 2000, 1991 / 4000, 181 / 500⟩

/-- The shaped text `engDemo` produces for `fontDemo`. -/
def stDemo : HBShapedText :=
  ⟨[0], [⟨⟨0, 0⟩, ⟨600, 0⟩⟩], boxDemo⟩

/-- Evaluation of the bounding loop on the demonstration glyph. -/
theorem boundingLoop_demo :
    boundingLoop (engDemo.glyphExtents 5) [(0, posDemo)] ⟨⟨0, 0⟩, none⟩ =
      some ⟨⟨600, 0⟩, some ⟨1, -2, 11, 8⟩⟩ := by
  norm_num [boundingLoop, boundingStep, glyphRect, unionBox, engDemo, extDemo,
    posDemo]

/-- Evaluation of the bounding-box computation on the demonstration run. -/
theorem calc_demo :
    calculate_bounding_rect engDemo [0] [posDemo] fontDemo = some boxDemo := by
  norm_num [calculate_bounding_rect, HBFont.hb_font, fontDemo, engDemo,
    boundingLoop, boundingStep, glyphRect, unionBox, scaleBox, extDemo,
    posDemo, boxDemo]

/-- Evaluation of the whole construction on the demonstration engine. -/
theorem fromText_demo :
    HBShapedText.fromText engDemo [65] fontDemo = some stDemo := by
  norm_num [HBShapedText.fromText, narrowIntOfNat, HBFont.hb_font, fontDemo,
    engDemo, calculate_bounding_rect, boundingLoop, boundingStep, glyphRect,
    unionBox, scaleBox, extDemo, posDemo, toPlacement, stDemo, boxDemo,
    BLBox.zero]

/-! ## Claim theorems -/

/-- **C1** (code bug evidence). The claim says every copy of an `HBFont`
shares the native handle and reports the source's `font_size()`.  The code
disagrees on both counts: the copy constructor shares the handle but leaves
`font_size_` at its default member initializer `0` instead of copying
`45.25`; copy assignment builds a full copy but then swaps only `font_size_`
with it, so the assigned-to object keeps its own old handle (9, not 7) and
ends with the temporary's defaulted size `0`. -/
theorem c1_font_copy_bug :
    HBFont.copyCtor ⟨some 7, 181 / 4⟩ = some ⟨some 7, 0⟩ ∧
      (181 / 4 : ℚ) ≠ 0 ∧
      HBFont.copyAssign ⟨some 9, 12⟩ ⟨some 7, 181 / 4⟩ = some ⟨some 9, 0⟩ ∧
      (9 : ℕ) ≠ 7 := by
  refine ⟨rfl, by norm_num, rfl, by decide⟩

/-- **C2**. For every non-empty byte sequence (of a length the `unsigned
int` narrowing admits) that the engine rejects by handing back its canonical
empty-blob sentinel, `HBFontFace` construction throws the resource error
rather than succeeding or terminating. -/
theorem c2_reject_resource_error (e : Engine) (data : List ℕ) (idx : ℕ)
    (hne : data ≠ []) (hfit : data.length ≤ 2 ^ 32 - 1)
    (hrej : e.blobCreate data = e.emptyBlob) :
    HBFontFace.fromData e data idx =
      some (Except.error "Unable to load font_data in Harfbuzz") := by
  have hblob : HBBlob.fromData e data =
      some (Except.error "Unable to load font_data in Harfbuzz") := by
    unfold HBBlob.fromData narrowUIntOfNat
    rw [if_pos hfit]
    simp only
    rw [if_pos ⟨hne, hrej⟩]
  unfold HBFontFace.fromData
  rw [hblob]
  rfl

/-- Witness for C2: a concrete three-byte sequence on the rejecting
engine. -/
theorem c2_witness :
    HBFontFace.fromData engRej [1, 2, 3] 0 =
      some (Except.error "Unable to load font_data in Harfbuzz") :=
  c2_reject_resource_error engRej [1, 2, 3] 0 (by decide) (by decide) rfl

/-- **C5**. The per-glyph box negates the y-axis: the near edge is
`offset + bearing`, the far edge `offset + bearing + size`, both y-components
negated; and whenever the engine honours its extents contract
(`width ≥ 0`, `height ≤ 0`) the asserted invariants `x0 ≤ x1` and `y0 ≤ y1`
hold. -/
theorem c5_glyph_rect_y_negated (origin : BLPoint) (pos : GlyphPosition)
    (ext : GlyphExtents) (hw : 0 ≤ ext.width) (hh : ext.height ≤ 0) :
    (glyphRect origin pos ext).x0 = origin.x + pos.x_offset + ext.x_bearing ∧
    (glyphRect origin pos ext).y0 = -(origin.y + pos.y_offset + ext.y_bearing) ∧
    (glyphRect origin pos ext).x1
      = origin.x + pos.x_offset + ext.x_bearing + ext.width ∧
    (glyphRect origin pos ext).y1
      = -(origin.y + pos.y_offset + ext.y_bearing + ext.height) ∧
    (glyphRect origin pos ext).x0 ≤ (glyphRect origin pos ext).x1 ∧
    (glyphRect origin pos ext).y0 ≤ (glyphRect origin pos ext).y1 := by
  refine ⟨rfl, rfl, rfl, rfl, ?_, ?_⟩
  · rw [glyphRect_x1_eq]
    have h0 : (0 : ℚ) ≤ ext.width := by exact_mod_cast hw
    linarith
  · rw [glyphRect_y1_eq]
    have h0 : (ext.height : ℚ) ≤ 0 := by exact_mod_cast hh
    linarith

/-- Witness for C5: the demonstration glyph satisfies the contract and the
asserted invariants. -/
theorem c5_witness :
    (glyphRect ⟨0, 0⟩ posDemo extDemo).x0 ≤ (glyphRect ⟨0, 0⟩ posDemo extDemo).x1 ∧
      (glyphRect ⟨0, 0⟩ posDemo extDemo).y0 ≤ (glyphRect ⟨0, 0⟩ posDemo extDemo).y1 :=
  (c5_glyph_rect_y_negated ⟨0, 0⟩ posDemo extDemo (by decide) (by decide)).2.2.2.2

/-- **C9**. A byte length that does not fit `int` makes `ShapedText`
construction terminate (`none`); the narrowing never truncates — every value
it returns equals the input — and every fitting length is returned
unchanged. -/
theorem c9_narrow_fatal (e : Engine) (text : List ℕ) (font : HBFont) :
    (2 ^ 31 - 1 < text.length → HBShapedText.fromText e text font = none) ∧
    (∀ v, narrowIntOfNat text.length = some v → v = (text.length : ℤ)) ∧
    (text.length ≤ 2 ^ 31 - 1 →
      narrowIntOfNat text.length = some (text.length : ℤ)) := by
  refine ⟨fun hbig => ?_, fun v hv => ?_, fun hfit => ?_⟩
  · unfold HBShapedText.fromText narrowIntOfNat
    rw [if_neg (by omega)]
  · unfold narrowIntOfNat at hv
    split_ifs at hv
    exact (Option.some_inj.mp hv).symm
  · unfold narrowIntOfNat
    rw [if_pos hfit]

/-- Witness for C9: a 2^31-byte input terminates construction; length 3 is
narrowed to itself. -/
theorem c9_witness :
    HBShapedText.fromText engDemo (List.replicate (2 ^ 31) 0)
        (HBFont.default engDemo) = none ∧
      narrowIntOfNat 3 = some 3 := by
  constructor
  · exact (c9_narrow_fatal engDemo (List.replicate (2 ^ 31) 0)
      (HBFont.default engDemo)).1 (by simp only [List.length_replicate]; decide)
  · exact (c9_narrow_fatal engDemo [0, 1, 2] (HBFont.default engDemo)).2.2 (by decide)

/-- **C10 counterexample**. Move-assigning away from a face built from real
font data leaves the moved-from object holding the assigned-to object's
previous handle (here the created face handle 1), not the engine's canonical
empty-face sentinel (handle 0).  (Claim C10 asserts the canonical empty
handle after any move.) -/
theorem c10_counterexample :
    HBFontFace.fromData engDemo [1, 2, 3] 0 = some (Except.ok ⟨some 1⟩) ∧
      (HBFontFace.moveAssign ⟨some 1⟩ (HBFontFace.default engDemo)).2 =
        ⟨some 1⟩ ∧
      (HBFontFace.moveAssign ⟨some 1⟩ (HBFontFace.default engDemo)).2.hb_face_ ≠
        some engDemo.emptyFace := by
  refine ⟨rfl, rfl, by decide⟩

/-- **C10 (amended)**. After move construction the moved-from
face/font holds the engine's canonical empty handle; after move assignment
it instead holds the handle previously owned by the assigned-to object.  In
all cases every handle involved stays non-null, so the `hb_face()` /
`hb_font()` accessors return normally (never observe null). -/
theorem c10_moved_from_handles (e : Engine) (a b : HBFontFace) (f g : HBFont)
    (ha : a.hb_face_.isSome) (hb2 : b.hb_face_.isSome)
    (hf : f.hb_font_.isSome) (hg : g.hb_font_.isSome) :
    (HBFontFace.moveCtor e a).2.hb_face_ = some e.emptyFace ∧
    (HBFont.moveCtor e f).2.hb_font_ = some e.emptyFont ∧
    (HBFontFace.moveAssign a b).2.hb_face_ = a.hb_face_ ∧
    (HBFont.moveAssign f g).2.hb_font_ = f.hb_font_ ∧
    ((HBFontFace.moveCtor e a).1.hb_face.isSome ∧
      (HBFontFace.moveCtor e a).2.hb_face.isSome ∧
      (HBFontFace.moveAssign a b).1.hb_face.isSome ∧
      (HBFontFace.moveAssign a b).2.hb_face.isSome) ∧
    ((HBFont.moveCtor e f).1.hb_font.isSome ∧
      (HBFont.moveCtor e f).2.hb_font.isSome ∧
      (HBFont.moveAssign f g).1.hb_font.isSome ∧
      (HBFont.moveAssign f g).2.hb_font.isSome) := by
  refine ⟨rfl, rfl, rfl, rfl, ⟨?_, ?_, ?_, ?_⟩, ⟨?_, ?_, ?_, ?_⟩⟩
  · exact ha
  · simp [HBFontFace.moveCtor, HBFontFace.default, HBFontFace.hb_face]
  · exact hb2
  · exact ha
  · exact hf
  · simp [HBFont.moveCtor, HBFont.hb_font]
  · exact hg
  · exact hf

/-- **C3 counterexample**. With font size 0 the calculation returns the
all-zero box although a glyph contributed ink (the loop's accumulator is
`some _`) and both scale components are nonzero — refuting the claimed
"exactly when". -/
theorem c3_counterexample :
    calculate_bounding_rect engDemo [0] [posDemo] ⟨some 5, 0⟩ = some BLBox.zero ∧
      boundingLoop (engDemo.glyphExtents 5) ([0].zip [posDemo]) ⟨⟨0, 0⟩, none⟩ =
        some ⟨⟨600, 0⟩, some ⟨1, -2, 11, 8⟩⟩ ∧
      (engDemo.fontScale 5).x ≠ 0 ∧ (engDemo.fontScale 5).y ≠ 0 := by
  refine ⟨?_, ?_, by decide, by decide⟩
  · norm_num [calculate_bounding_rect, HBFont.hb_font, engDemo, boundingLoop,
      boundingStep, glyphRect, unionBox, scaleBox, extDemo, posDemo, BLBox.zero]
  · norm_num [boundingLoop, boundingStep, glyphRect, unionBox, engDemo,
      extDemo, posDemo]

/-- **C3 (amended)**. Provided the requested pixel size is nonzero, the
calculation returns the all-zero box exactly when no glyph contributed ink
or either scale component is zero; in the remaining case it returns the
accumulated union divided componentwise by the per-axis scale and multiplied
by the size. -/
theorem c3_zero_box_iff (e : Engine) (glyph_info : List ℕ)
    (glyph_positions : List GlyphPosition) (font : HBFont) (fh : ℕ)
    (hfh : font.hb_font_ = some fh) (hfs : font.font_size_ ≠ 0)
    (s : BoundState) (box : BLBox)
    (hloop : boundingLoop (e.glyphExtents fh) (glyph_info.zip glyph_positions)
      ⟨⟨0, 0⟩, none⟩ = some s)
    (hcalc : calculate_bounding_rect e glyph_info glyph_positions font
      = some box) :
    (box = BLBox.zero ↔
      s.acc = none ∨ (e.fontScale fh).x = 0 ∨ (e.fontScale fh).y = 0) ∧
    (∀ r, s.acc = some r → (e.fontScale fh).x ≠ 0 → (e.fontScale fh).y ≠ 0 →
      box = scaleBox r (e.fontScale fh) font.font_size_) := by
  have hstrict : strictAcc s.acc :=
    boundingLoop_strict (e.glyphExtents fh) (glyph_info.zip glyph_positions)
      ⟨⟨0, 0⟩, none⟩ s hloop trivial
  unfold calculate_bounding_rect at hcalc
  simp only [HBFont.hb_font, hfh] at hcalc
  rw [hloop] at hcalc
  simp only at hcalc
  cases hacc : s.acc with
  | none =>
    rw [hacc] at hcalc
    simp only [Option.some.injEq] at hcalc
    refine ⟨?_, ?_⟩
    · rw [← hcalc]
      simp
    · intro r hr
      exact absurd hr (by simp)
  | some r =>
    rw [hacc] at hcalc
    simp only at hcalc
    by_cases hsc : (e.fontScale fh).x = 0 ∨ (e.fontScale fh).y = 0
    · rw [if_pos hsc] at hcalc
      simp only [Option.some.injEq] at hcalc
      refine ⟨⟨fun _ => Or.inr hsc, fun _ => hcalc.symm⟩, ?_⟩
      intro r' hr' hx hy
      rcases hsc with h' | h'
      · exact absurd h' hx
      · exact absurd h' hy
    · rw [if_neg hsc] at hcalc
      simp only [Option.some.injEq] at hcalc
      push_neg at hsc
      obtain ⟨hx, hy⟩ := hsc
      rw [hacc] at hstrict
      have hnz : scaleBox r (e.fontScale fh) font.font_size_ ≠ BLBox.zero :=
        scaleBox_ne_zero r (e.fontScale fh) font.font_size_ hstrict.1
          (Int.cast_ne_zero.mpr hx) hfs
      refine ⟨?_, ?_⟩
      · constructor
        · intro hz
          rw [← hcalc] at hz
          exact absurd hz hnz
        · intro hor
          rcases hor with h' | h' | h'
          · exact absurd h' (by simp)
          · exact absurd h' hx
          · exact absurd h' hy
      · intro r' hr' _ _
        obtain rfl : r' = r := (Option.some_inj.mp hr').symm
        exact hcalc.symm

/-- Witness for C3: the demonstration run at nonzero size 45.25; the zero-box
iff and the scaled-union equation hold there. -/
theorem c3_witness :
    (boxDemo = BLBox.zero ↔
        (⟨⟨600, 0⟩, some ⟨1, -2, 11, 8⟩⟩ : BoundState).acc = none ∨
          (engDemo.fontScale 5).x = 0 ∨ (engDemo.fontScale 5).y = 0) ∧
      (∀ r, (⟨⟨600, 0⟩, some ⟨1, -2, 11, 8⟩⟩ : BoundState).acc = some r →
        (engDemo.fontScale 5).x ≠ 0 → (engDemo.fontScale 5).y ≠ 0 →
        boxDemo = scaleBox r (engDemo.fontScale 5) fontDemo.font_size_) :=
  c3_zero_box_iff engDemo [0] [posDemo] fontDemo 5 rfl
    (by norm_num [fontDemo]) ⟨⟨600, 0⟩, some ⟨1, -2, 11, 8⟩⟩ boxDemo
    boundingLoop_demo calc_demo

/-- **C4**. Over any successful run of the bounding loop the pen origin
moves by the sum of all glyph advances (contributing or not), and a single
step changes the accumulated union only if the extents query succeeded with
nonzero width and height — in which case it unions in exactly that glyph's
box. -/
theorem c4_contribution_and_advances (extentsOf : ℕ → Option GlyphExtents)
    (glyphs : List (ℕ × GlyphPosition)) (s s' : BoundState)
    (h : boundingLoop extentsOf glyphs s = some s') :
    s'.origin.x = s.origin.x + ((glyphs.map fun g => g.2.x_advance).sum : ℤ) ∧
    s'.origin.y = s.origin.y + ((glyphs.map fun g => g.2.y_advance).sum : ℤ) ∧
    (∀ t g t', boundingStep extentsOf t g = some t' →
      t'.origin = ⟨t.origin.x + g.2.x_advance, t.origin.y + g.2.y_advance⟩ ∧
      (t'.acc ≠ t.acc →
        ∃ ext, extentsOf g.1 = some ext ∧ ext.width ≠ 0 ∧ ext.height ≠ 0) ∧
      (∀ ext, extentsOf g.1 = some ext → ext.width ≠ 0 → ext.height ≠ 0 →
        t'.acc = some (unionBox t.acc (glyphRect t.origin g.2 ext)))) := by
  obtain ⟨hx, hy⟩ := boundingLoop_origin extentsOf glyphs s s' h
  refine ⟨hx, hy, fun t g t' hstep => ?_⟩
  obtain ⟨hnc, hc⟩ := boundingStep_acc extentsOf t t' g hstep
  refine ⟨boundingStep_origin extentsOf t t' g hstep, fun hne => ?_, hc⟩
  by_cases hcb : contributesB extentsOf g.1 = true
  · unfold contributesB at hcb
    cases hext : extentsOf g.1 with
    | none => rw [hext] at hcb; exact absurd hcb (by simp)
    | some ext =>
      rw [hext] at hcb
      simp only [Bool.and_eq_true, decide_eq_true_eq] at hcb
      exact ⟨ext, rfl, hcb.1, hcb.2⟩
  · exact absurd (hnc (by simpa using hcb)) hne

/-- Witness for C4: a one-glyph run on the demonstration engine; the final
origin is the advance sum. -/
theorem c4_witness :
    boundingLoop (engDemo.glyphExtents 5) [(0, posDemo)] ⟨⟨0, 0⟩, none⟩ =
        some ⟨⟨600, 0⟩, some ⟨1, -2, 11, 8⟩⟩ ∧
      (⟨⟨600, 0⟩, some ⟨1, -2, 11, 8⟩⟩ : BoundState).origin.x =
        (⟨⟨0, 0⟩, none⟩ : BoundState).origin.x +
          ((([(0, posDemo)]).map fun g => g.2.x_advance).sum : ℤ) :=
  ⟨boundingLoop_demo, (c4_contribution_and_advances _ _ _ _ boundingLoop_demo).1⟩

/-- **C6**. After a (non-terminating) construction, the codepoint and
placement sequences have equal length, equal to the number of glyphs the
engine produced, and the accessors preserve it: even the defensively clamped
`glyph_run().size` equals that common length. -/
theorem c6_lengths (e : Engine) (text : List ℕ) (font : HBFont) (fh : ℕ)
    (hfh : font.hb_font_ = some fh) (st : HBShapedText)
    (h : HBShapedText.fromText e text font = some st) :
    st.codepoints_.length = st.placements_.length ∧
      st.codepoints_.length = (e.shape text fh).length ∧
      st.glyph_run.size = st.codepoints_.length := by
  unfold HBShapedText.fromText at h
  cases hnarrow : narrowIntOfNat text.length with
  | none => rw [hnarrow] at h; exact absurd h (by simp)
  | some v =>
    rw [hnarrow] at h
    simp only [HBFont.hb_font, hfh] at h
    cases hcalc : calculate_bounding_rect e ((e.shape text fh).map Prod.fst)
        ((e.shape text fh).map Prod.snd) font with
    | none => rw [hcalc] at h; exact absurd h (by simp)
    | some bb =>
      rw [hcalc] at h
      simp only [Option.some.injEq] at h
      rw [← h]
      simp [HBShapedText.glyph_run]

/-- Witness for C6: the demonstration shaping run. -/
theorem c6_witness :
    stDemo.codepoints_.length = stDemo.placements_.length ∧
      stDemo.codepoints_.length = (engDemo.shape [65] 5).length ∧
      stDemo.glyph_run.size = stDemo.codepoints_.length :=
  c6_lengths engDemo [65] fontDemo 5 rfl stDemo fromText_demo

/-- A font stored with the slightly negative size `-2/5` (i.e. `-0.4f`),
exactly as `HBFont {face, -0.4f}` stores it: `std::round(-0.4f)` is `-0.0`,
which narrows to `unsigned int` 0, so the constructor returns normally. -/
def fontNeg : HBFont := ⟨some 5, -2 / 5⟩

/-- The shaped text `engDemo` produces for `fontNeg`. -/
def stNeg : HBShapedText :=
  ⟨[0], [⟨⟨0, 0⟩, ⟨600, 0⟩⟩], ⟨-1 / 2500, 1 / 1250, -11 / 2500, -2 / 625⟩⟩

/-- **C7 counterexample**. A font constructed with size `-0.4` passes the
ppem narrowing (round(-0.4) = 0) and is therefore reachable; shaping ink with
it yields a bounding rectangle of negative width, refuting "width and height
are nonnegative for every shaped result". -/
theorem c7_counterexample :
    HBFont.create engDemo (HBFontFace.default engDemo) (-2 / 5) = some fontNeg ∧
      HBShapedText.fromText engDemo [65] fontNeg = some stNeg ∧
      stNeg.bounding_rect.w < 0 := by
  refine ⟨?_, ?_, by norm_num [stNeg, HBShapedText.bounding_rect]⟩
  · norm_num [HBFont.create, HBFontFace.default, HBFontFace.hb_face, engDemo,
      cppRound, narrowUIntOfRat, ratTrunc, fontNeg]
  · norm_num [HBShapedText.fromText, narrowIntOfNat, HBFont.hb_font, fontNeg,
      engDemo, calculate_bounding_rect, boundingLoop, boundingStep, glyphRect,
      unionBox, scaleBox, extDemo, posDemo, toPlacement, stNeg, BLBox.zero]

/-- **C7 (amended)**. `bounding_rect()` is exactly
`(x0, y0, x1 - x0, y1 - y0)` of the stored box, and its width and height are
nonnegative for every shaped result whose font size and font scale
components are nonnegative. -/
theorem c7_bounding_rect (e : Engine) (text : List ℕ) (font : HBFont) (fh : ℕ)
    (hfh : font.hb_font_ = some fh) (st : HBShapedText)
    (h : HBShapedText.fromText e text font = some st)
    (hfs : 0 ≤ font.font_size_) (hsx : 0 ≤ (e.fontScale fh).x)
    (hsy : 0 ≤ (e.fontScale fh).y) :
    st.bounding_rect = ⟨st.bounding_box_.x0, st.bounding_box_.y0,
        st.bounding_box_.x1 - st.bounding_box_.x0,
        st.bounding_box_.y1 - st.bounding_box_.y0⟩ ∧
      0 ≤ st.bounding_rect.w ∧ 0 ≤ st.bounding_rect.h := by
  refine ⟨rfl, ?_⟩
  unfold HBShapedText.fromText at h
  cases hnarrow : narrowIntOfNat text.length with
  | none => rw [hnarrow] at h; exact absurd h (by simp)
  | some v =>
    rw [hnarrow] at h
    simp only [HBFont.hb_font, hfh] at h
    cases hcalc : calculate_bounding_rect e ((e.shape text fh).map Prod.fst)
        ((e.shape text fh).map Prod.snd) font with
    | none => rw [hcalc] at h; exact absurd h (by simp)
    | some bb =>
      rw [hcalc] at h
      simp only [Option.some.injEq] at h
      unfold calculate_bounding_rect at hcalc
      simp only [HBFont.hb_font, hfh] at hcalc
      cases hloop : boundingLoop (e.glyphExtents fh)
          (((e.shape text fh).map Prod.fst).zip ((e.shape text fh).map Prod.snd))
          ⟨⟨0, 0⟩, none⟩ with
      | none => rw [hloop] at hcalc; exact absurd hcalc (by simp)
      | some s =>
        rw [hloop] at hcalc
        simp only at hcalc
        have hstrict : strictAcc s.acc := boundingLoop_strict _ _ _ _ hloop trivial
        cases hacc : s.acc with
        | none =>
          rw [hacc] at hcalc
          simp only [Option.some.injEq] at hcalc
          rw [← h, ← hcalc]
          simp [HBShapedText.bounding_rect, BLBox.zero]
        | some r =>
          rw [hacc] at hcalc
          simp only at hcalc
          by_cases hsc : (e.fontScale fh).x = 0 ∨ (e.fontScale fh).y = 0
          · rw [if_pos hsc] at hcalc
            simp only [Option.some.injEq] at hcalc
            rw [← h, ← hcalc]
            simp [HBShapedText.bounding_rect, BLBox.zero]
          · rw [if_neg hsc] at hcalc
            simp only [Option.some.injEq] at hcalc
            push_neg at hsc
            rw [hacc] at hstrict
            have hsxq : (0 : ℚ) < (e.fontScale fh).x :=
              lt_of_le_of_ne (by exact_mod_cast hsx)
                (Ne.symm (Int.cast_ne_zero.mpr hsc.1))
            have hsyq : (0 : ℚ) < (e.fontScale fh).y :=
              lt_of_le_of_ne (by exact_mod_cast hsy)
                (Ne.symm (Int.cast_ne_zero.mpr hsc.2))
            rw [← h, ← hcalc]
            constructor
            · show (0 : ℚ) ≤ (scaleBox r (e.fontScale fh) font.font_size_).x1
                - (scaleBox r (e.fontScale fh) font.font_size_).x0
              simp only [scaleBox]
              have e1 : r.x1 / ((e.fontScale fh).x : ℚ) * font.font_size_
                  - r.x0 / ((e.fontScale fh).x : ℚ) * font.font_size_
                  = (r.x1 - r.x0) / ((e.fontScale fh).x : ℚ) * font.font_size_ := by
                ring
              rw [e1]
              exact mul_nonneg
                (div_nonneg (by linarith [hstrict.1]) (le_of_lt hsxq)) hfs
            · show (0 : ℚ) ≤ (scaleBox r (e.fontScale fh) font.font_size_).y1
                - (scaleBox r (e.fontScale fh) font.font_size_).y0
              simp only [scaleBox]
              have e1 : r.y1 / ((e.fontScale fh).y : ℚ) * font.font_size_
                  - r.y0 / ((e.fontScale fh).y : ℚ) * font.font_size_
                  = (r.y1 - r.y0) / ((e.fontScale fh).y : ℚ) * font.font_size_ := by
                ring
              rw [e1]
              exact mul_nonneg
                (div_nonneg (by linarith [hstrict.2]) (le_of_lt hsyq)) hfs

/-- Witness for C7: the demonstration run at the nonnegative size 45.25 with
nonnegative scales. -/
theorem c7_witness :
    stDemo.bounding_rect = ⟨stDemo.bounding_box_.x0, stDemo.bounding_box_.y0,
        stDemo.bounding_box_.x1 - stDemo.bounding_box_.x0,
        stDemo.bounding_box_.y1 - stDemo.bounding_box_.y0⟩ ∧
      0 ≤ stDemo.bounding_rect.w ∧ 0 ≤ stDemo.bounding_rect.h :=
  c7_bounding_rect engDemo [65] fontDemo 5 rfl stDemo fromText_demo
    (by norm_num [fontDemo]) (by decide) (by decide)

/-- **C8**. Construction from the same `(text, font)` pair is deterministic:
both results carry identical codepoint and placement sequences and an
identical bounding box, hence compare equal under the memberwise
`operator==`. -/
theorem c8_deterministic (e : Engine) (text : List ℕ) (font : HBFont)
    (s1 s2 : HBShapedText)
    (h1 : HBShapedText.fromText e text font = some s1)
    (h2 : HBShapedText.fromText e text font = some s2) :
    s1.codepoints_ = s2.codepoints_ ∧ s1.placements_ = s2.placements_ ∧
      s1.bounding_box_ = s2.bounding_box_ ∧
      HBShapedText.valueEq s1 s2 = true := by
  obtain rfl : s1 = s2 := Option.some_inj.mp (h1.symm.trans h2)
  exact ⟨rfl, rfl, rfl, by simp [HBShapedText.valueEq]⟩

/-- Witness for C8: the demonstration shaping run, twice. -/
theorem c8_witness : HBShapedText.valueEq stDemo stDemo = true :=
  (c8_deterministic engDemo [65] fontDemo stDemo stDemo fromText_demo
    fromText_demo).2.2.2

/-- Witness for C10: concrete face and font objects. -/
theorem c10_witness :
    (HBFontFace.moveCtor engDemo ⟨some 1⟩).2.hb_face_ = some engDemo.emptyFace ∧
      (HBFont.moveAssign fontDemo (HBFont.default engDemo)).2.hb_font_ =
        fontDemo.hb_font_ :=
  ⟨(c10_moved_from_handles engDemo ⟨some 1⟩ (HBFontFace.default engDemo)
      fontDemo (HBFont.default engDemo) (by decide) (by decide) (by decide)
      (by decide)).1,
   (c10_moved_from_handles engDemo ⟨some 1⟩ (HBFontFace.default engDemo)
      fontDemo (HBFont.default engDemo) (by decide) (by decide) (by decide)
      (by decide)).2.2.2.1⟩

end Blend2dShaping
